import Mathlib

/-!
Verification of the reclamation core of libscm (src/regions.c, src/arch.h).

Shallow embedding conventions:
* Region pages are identified by their base addresses (`Nat`).  A page chain
  (first page, `nextPage` links, cached tail pointer) is represented by the
  list of page addresses in link order; the head of the list is `firstPage`
  and the last element is the tail that `lastPage` caches.  Splicing a chain
  onto the head of the free-page pool (`last_page->nextPage = first_in_pool;
  pool = chain_head`) is list append, which coincides with the pointer
  operation whenever `lastPage` is consistent with the chain — the
  precondition every theorem below assumes, as the source's checked build
  does.
* C `unsigned long` counters are `Nat`.  The only subtractions performed by
  the source (`number_of_region_pages - 1`, the loop decrement of
  `number_of_recycle_region_pages`, and the dead store
  `number_of_recycle_region_pages - 1`) act on positive values whenever the
  documented preconditions hold, where `Nat` truncated subtraction and
  unsigned subtraction agree; the dead store is overwritten in all cases.
* C `int` (the descriptor counter `dc` and the atomic primitives) is `Int`
  wrapped to 32-bit two's complement by `int32`.
* Pages handed back to the OS via `__real_free` are collected in a list (in
  the order they are freed) so that theorems can speak about them.
* Build-time constants (`REGION_PAGE_PAYLOAD_SIZE`,
  `SCM_REGION_PAGE_FREELIST_SIZE`, and the offset of the `memory` payload
  field inside `region_page_t`) come from headers outside this repository
  slice; they are carried in a `scm_config` parameter and never fixed.
-/

/-- Build-time configuration constants of the allocator.
`REGION_PAGE_PAYLOAD_SIZE` is the payload size of a region page,
`SCM_REGION_PAGE_FREELIST_SIZE` is the pool capacity bound, and
`region_page_memory_offset` is the offset of the `memory` payload array
inside `region_page_t` (so that `&page->memory` is
`page + region_page_memory_offset`). -/
structure scm_config where
  REGION_PAGE_PAYLOAD_SIZE : Nat
  SCM_REGION_PAGE_FREELIST_SIZE : Nat
  region_page_memory_offset : Nat
deriving DecidableEq

/-- Address of a page's payload: models `(unsigned long)&page->memory`. -/
def memory_address (cfg : scm_config) (page : Nat) : Nat :=
  page + cfg.region_page_memory_offset

/-- The per-thread root state (`descriptor_root`): the epoch counter, the
free-page pool (list of page addresses, pool head first) and its cached
size. -/
structure descriptor_root_t where
  current_time : Nat
  region_page_pool : List Nat
  number_of_pooled_region_pages : Nat
deriving DecidableEq

/-- A region (`region_t`).  `chain` is the page chain reachable from
`firstPage` through the `nextPage` links; the source's `firstPage` /
`lastPage` pointers are `chain.head?` / `chain.getLast?` under the chain
consistency that the checked build asserts.  `dc` is the descriptor
counter (a C `int`). -/
structure region_t where
  chain : List Nat
  number_of_region_pages : Nat
  next_free_address : Nat
  last_address_in_last_page : Nat
  age : Nat
  dc : Int
deriving DecidableEq

/-- The region's `firstPage` pointer (`none` = NULL). -/
def region_t.firstPage (r : region_t) : Option Nat :=
  r.chain.head?

/-- The region's `lastPage` pointer (`none` = NULL), derived from the chain
under the cached-tail consistency invariant. -/
def region_t.lastPage (r : region_t) : Option Nat :=
  r.chain.getLast?

/-- The freshness predicate of regions.c line 81: the region was used in
the current epoch. -/
def is_fresh (root : descriptor_root_t) (region : region_t) : Prop :=
  region.age = root.current_time

instance (root : descriptor_root_t) (region : region_t) :
    Decidable (is_fresh root region) := by
  unfold is_fresh; infer_instance

/-- Size of the recyclable set selected by recycle_region: all pages except
the first for a fresh region (line 133), the whole chain for a zombie
(line 185).  Computed from the `number_of_region_pages` counter exactly as
the source does. -/
def recyclable_count (root : descriptor_root_t) (region : region_t) : Nat :=
  if is_fresh root region then region.number_of_region_pages - 1
  else region.number_of_region_pages

/-- The recyclable chain itself: the pages recycle_region detaches from the
region (fresh: everything after the first page; zombie: the whole chain). -/
def recyclable_chain (root : descriptor_root_t) (region : region_t) : List Nat :=
  if is_fresh root region then region.chain.tail else region.chain

/-- The deallocation loop of regions.c lines 230-243: starting from the head
of the legacy chain, hand pages back to the OS (`__real_free`) one at a
time, decrementing the remaining-to-recycle count, while pages remain and
`pooled + remaining > SCM_REGION_PAGE_FREELIST_SIZE`.  Returns the
remaining chain (`page2free`), the remaining count, and the freed pages in
order.  The C decrement is on `unsigned long`; under the precondition
`pooled ≤ SCM_REGION_PAGE_FREELIST_SIZE` it only acts on positive counts,
where `Nat` subtraction agrees. -/
def free_pages_loop (cfg : scm_config) (pooled : Nat) :
    List Nat → Nat → List Nat × Nat × List Nat
  | [], n => ([], n, [])
  | page2free :: rest, n =>
    if cfg.SCM_REGION_PAGE_FREELIST_SIZE < pooled + n then
      let r := free_pages_loop cfg pooled rest (n - 1)
      (r.1, r.2.1, page2free :: r.2.2)
    else
      (page2free :: rest, n, [])

/-- The pool-capacity decision of regions.c lines 189-267, acting on the
detached legacy chain with remaining-to-recycle count `n`.
Fits branch (193-223): splice the whole chain onto the pool head and set the
pooled count to `pooled + n`.
Overflow branch (225-266): run the deallocation loop; then (lines 247-263)
if pages remain and they now fit, splice them onto the pool head and store
`n - 1` into the pooled count — a store that lines 265-266 immediately
overwrite with `pooled + n` unconditionally (the double assignment noted in
the spec).  Returns the new root state and the list of pages freed to the
OS. -/
def pool_or_free (cfg : scm_config) (root : descriptor_root_t)
    (legacy_pages : List Nat) (n : Nat) :
    descriptor_root_t × List Nat :=
  let pooled := root.number_of_pooled_region_pages
  if pooled + n ≤ cfg.SCM_REGION_PAGE_FREELIST_SIZE then
    ({ root with
        region_page_pool := legacy_pages ++ root.region_page_pool,
        number_of_pooled_region_pages := pooled + n },
     [])
  else
    let res := free_pages_loop cfg pooled legacy_pages n
    let page2free := res.1
    let n2 := res.2.1
    let freed := res.2.2
    let root1 :=
      if page2free ≠ [] ∧ pooled + n2 ≤ cfg.SCM_REGION_PAGE_FREELIST_SIZE then
        { root with
            region_page_pool := page2free ++ root.region_page_pool,
            number_of_pooled_region_pages := n2 - 1 }
      else root
    ({ root1 with number_of_pooled_region_pages := pooled + n2 }, freed)

/-- The re-anchor block of regions.c lines 269-273, run after the pool phase
for fresh and zombie regions alike: `number_of_region_pages = 1`,
`lastPage = firstPage`, and the bump cursor is reset from the (possibly
dangling) first page `fp`:
`last_address_in_last_page = &lastPage->memory + REGION_PAGE_PAYLOAD_SIZE`
(note: no `- 1` here, unlike line 87-88) and
`next_free_address = &lastPage->memory`. -/
def reanchor (cfg : scm_config) (region : region_t) (fp : Nat) : region_t :=
  { region with
      number_of_region_pages := 1,
      chain := [fp],
      last_address_in_last_page :=
        memory_address cfg fp + cfg.REGION_PAGE_PAYLOAD_SIZE,
      next_free_address := memory_address cfg fp }

/-- `recycle_region` (regions.c lines 55-322).  Returns the new root state,
the new region state, and the pages handed back to the OS.

Fresh path (lines 81-136): save `legacy_pages = firstPage->nextPage`, then
`memset(firstPage, 0, REGION_PAGE_SIZE)` — which clears the first page's
`nextPage` link, detaching it from the chain — and set
`last_address_in_last_page = &firstPage->memory + REGION_PAGE_PAYLOAD_SIZE - 1`.
If there are no legacy pages, set `dc = 0` and return.  Otherwise recycle
`number_of_region_pages - 1` pages.

Zombie path (lines 138-187): the whole chain is the legacy chain; if it is
empty (`firstPage == NULL`), set `dc = 0` and return; otherwise recycle
`number_of_region_pages` pages.

Both continue with the pool phase (189-267), the re-anchor block (269-273),
and, for a zombie, the override of lines 296-299 that empties the region
(`number_of_region_pages = 0`, `lastPage = firstPage = NULL`) while leaving
the just-written bump cursor in place.

The fresh path with `firstPage == NULL` dereferences NULL in C (the checked
build aborts first); the model returns the state unchanged there, and every
theorem below assumes the documented initialization precondition that rules
it out. -/
def recycle_region (cfg : scm_config) (root : descriptor_root_t)
    (region : region_t) : descriptor_root_t × region_t × List Nat :=
  if region.age = root.current_time then
    match region.chain with
    | [] => (root, region, [])
    | firstPage :: legacy_pages =>
      let region1 := { region with
        chain := [firstPage],
        last_address_in_last_page :=
          memory_address cfg firstPage + cfg.REGION_PAGE_PAYLOAD_SIZE - 1 }
      if legacy_pages = [] then
        (root, { region1 with dc := 0 }, [])
      else
        let n := region.number_of_region_pages - 1
        let pr := pool_or_free cfg root legacy_pages n
        (pr.1, reanchor cfg region1 firstPage, pr.2)
  else
    match region.chain with
    | [] => (root, { region with dc := 0 }, [])
    | firstPage :: _ =>
      let n := region.number_of_region_pages
      let pr := pool_or_free cfg root region.chain n
      let region2 := reanchor cfg region firstPage
      (pr.1, { region2 with chain := [], number_of_region_pages := 0 }, pr.2)

/-- 32-bit two's complement wrap for the C `int` arithmetic of arch.h. -/
def int32 (x : Int) : Int :=
  (x + 2 ^ 31) % 2 ^ 32 - 2 ^ 31

/-- `atomic_int_exchange_and_add` (arch.h lines 67-76): atomically add `val`
to the counter and return the value observed before the update.  Modelled
as a state transformer `(new value, returned old value)`. -/
def atomic_int_exchange_and_add (atomic : Int) (val : Int) : Int × Int :=
  (int32 (atomic + val), atomic)

/-- `atomic_int_dec_and_test` (arch.h lines 13-14):
`atomic_int_exchange_and_add(atomic, -1) == 1`.  Returns the new counter
value and the test result. -/
def atomic_int_dec_and_test (atomic : Int) : Int × Bool :=
  let r := atomic_int_exchange_and_add atomic (-1)
  (r.1, decide (r.2 = 1))

/-- Result of `expire_reg_descriptor_if_exists`: the C return value, the new
root state, the updated region (when the source yielded one), whether
`recycle_region` was invoked, and the pages freed to the OS. -/
structure expire_result where
  ret : Int
  root : descriptor_root_t
  expired_region : Option region_t
  recycled : Bool
  freed : List Nat
deriving DecidableEq

/-- `expire_reg_descriptor_if_exists` (regions.c lines 329-365).  The
external source `get_expired_mem` is modelled by its yielded value
`expired` (`none` = NULL).  If a region was yielded, its `dc` is atomically
decremented; `recycle_region` runs exactly when the decrement observed the
old value 1; the function returns 1.  Otherwise it returns 0 and touches
nothing. -/
def expire_reg_descriptor_if_exists (cfg : scm_config)
    (root : descriptor_root_t) (expired : Option region_t) : expire_result :=
  match expired with
  | none => ⟨0, root, none, false, []⟩
  | some r =>
    let step := atomic_int_dec_and_test r.dc
    let r1 := { r with dc := step.1 }
    if step.2 then
      let res := recycle_region cfg root r1
      ⟨1, res.1, some res.2.1, true, res.2.2⟩
    else
      ⟨1, root, some r1, false, []⟩

/-- One interleaving of decrements of a shared counter: the schedule is the
order in which the competing threads' `atomic_int_dec_and_test` calls
linearize (each list entry is a thread id); each call's test result is
recorded with its thread id. -/
def run_dec_schedule : List Nat → Int → List (Nat × Bool)
  | [], _ => []
  | t :: ts, a =>
    let step := atomic_int_dec_and_test a
    (t, step.2) :: run_dec_schedule ts step.1

/-- The deallocation loop frees exactly the initial segment of the chain
that brings `pooled + remaining` within the capacity bound: when the count
matches the chain length, it stops with the chain's remainder after
`pooled + length - SCM_REGION_PAGE_FREELIST_SIZE` pages, the count reduced
accordingly, and exactly those head pages freed. -/
lemma free_pages_loop_spec (cfg : scm_config) (pooled : Nat) :
    ∀ legacy_pages : List Nat,
      free_pages_loop cfg pooled legacy_pages legacy_pages.length =
        (legacy_pages.drop
            (pooled + legacy_pages.length - cfg.SCM_REGION_PAGE_FREELIST_SIZE),
         legacy_pages.length -
            (pooled + legacy_pages.length - cfg.SCM_REGION_PAGE_FREELIST_SIZE),
         legacy_pages.take
            (pooled + legacy_pages.length - cfg.SCM_REGION_PAGE_FREELIST_SIZE)) := by
  intro legacy_pages
  induction legacy_pages with
  | nil => simp [free_pages_loop]
  | cons p rest ih =>
    simp only [free_pages_loop, List.length_cons, Nat.add_sub_cancel, ih]
    by_cases h : cfg.SCM_REGION_PAGE_FREELIST_SIZE < pooled + (rest.length + 1)
    · rw [if_pos h]
      have hg : pooled + (rest.length + 1) - cfg.SCM_REGION_PAGE_FREELIST_SIZE =
          (pooled + rest.length - cfg.SCM_REGION_PAGE_FREELIST_SIZE) + 1 := by omega
      rw [hg, List.drop_succ_cons, List.take_succ_cons]
      simp only [Prod.mk.injEq]
      exact ⟨trivial, by omega, trivial⟩
    · rw [if_neg h]
      have hz : pooled + (rest.length + 1) - cfg.SCM_REGION_PAGE_FREELIST_SIZE = 0 := by
        omega
      rw [hz]
      simp

/-- The pool phase realizes the single well-defined capacity rule: with a
count matching the chain length and a pooled count within the bound, the
pool receives the chain minus its overflow prefix, the pooled count becomes
`min (SCM_REGION_PAGE_FREELIST_SIZE) (pooled + n)` — in the fits branch and
in the overflow branch alike, the dead store notwithstanding — and exactly
the overflow prefix is freed to the OS. -/
lemma pool_or_free_spec (cfg : scm_config) (root : descriptor_root_t)
    (legacy_pages : List Nat)
    (hp : root.number_of_pooled_region_pages ≤ cfg.SCM_REGION_PAGE_FREELIST_SIZE) :
    pool_or_free cfg root legacy_pages legacy_pages.length =
      ({ root with
          region_page_pool :=
            legacy_pages.drop (root.number_of_pooled_region_pages
              + legacy_pages.length - cfg.SCM_REGION_PAGE_FREELIST_SIZE)
              ++ root.region_page_pool,
          number_of_pooled_region_pages :=
            min cfg.SCM_REGION_PAGE_FREELIST_SIZE
              (root.number_of_pooled_region_pages + legacy_pages.length) },
       legacy_pages.take (root.number_of_pooled_region_pages
         + legacy_pages.length - cfg.SCM_REGION_PAGE_FREELIST_SIZE)) := by
  obtain ⟨t, pool, pooled⟩ := root
  simp only at hp
  by_cases hfits : pooled + legacy_pages.length ≤ cfg.SCM_REGION_PAGE_FREELIST_SIZE
  · have h0 : pooled + legacy_pages.length - cfg.SCM_REGION_PAGE_FREELIST_SIZE = 0 := by
      omega
    have hmin : min cfg.SCM_REGION_PAGE_FREELIST_SIZE (pooled + legacy_pages.length) =
        pooled + legacy_pages.length := by omega
    simp [pool_or_free, hfits, h0, hmin]
  · have hloop := free_pages_loop_spec cfg pooled legacy_pages
    have hmin : min cfg.SCM_REGION_PAGE_FREELIST_SIZE (pooled + legacy_pages.length) =
        cfg.SCM_REGION_PAGE_FREELIST_SIZE := by omega
    by_cases hfull : cfg.SCM_REGION_PAGE_FREELIST_SIZE ≤ pooled
    · have hnil : legacy_pages.drop (pooled + legacy_pages.length -
          cfg.SCM_REGION_PAGE_FREELIST_SIZE) = [] :=
        List.drop_eq_nil_of_le (by omega)
      have hcnt : pooled + (legacy_pages.length - (pooled + legacy_pages.length -
          cfg.SCM_REGION_PAGE_FREELIST_SIZE)) = cfg.SCM_REGION_PAGE_FREELIST_SIZE := by
        omega
      simp [pool_or_free, hfits, hloop, hnil, hmin, hcnt]
    · have hne : legacy_pages.drop (pooled + legacy_pages.length -
          cfg.SCM_REGION_PAGE_FREELIST_SIZE) ≠ [] := by
        intro hcon
        have hl : legacy_pages.length - (pooled + legacy_pages.length -
            cfg.SCM_REGION_PAGE_FREELIST_SIZE) = 0 := by
          have := congrArg List.length hcon
          simpa using this
        omega
      have hle : pooled + (legacy_pages.length - (pooled + legacy_pages.length -
          cfg.SCM_REGION_PAGE_FREELIST_SIZE)) ≤ cfg.SCM_REGION_PAGE_FREELIST_SIZE := by
        omega
      have hcnt : pooled + (legacy_pages.length - (pooled + legacy_pages.length -
          cfg.SCM_REGION_PAGE_FREELIST_SIZE)) = cfg.SCM_REGION_PAGE_FREELIST_SIZE := by
        omega
      simp [pool_or_free, hfits, hloop, hne, hle, hmin, hcnt]

/-- Path equation: a fresh region with a non-empty legacy chain.  The pool
receives the legacy chain minus its overflow prefix, the pooled count
becomes `min (bound) (pooled + n)`, the region is re-anchored to its first
page with the line-271 bump cursor, and the overflow prefix is freed. -/
lemma recycle_region_fresh_multi (cfg : scm_config) (root : descriptor_root_t)
    (region : region_t) (fp : Nat) (legacy_pages : List Nat)
    (hfresh : region.age = root.current_time)
    (hchain : region.chain = fp :: legacy_pages)
    (hleg : legacy_pages ≠ [])
    (hcons : region.number_of_region_pages = region.chain.length)
    (hp : root.number_of_pooled_region_pages ≤ cfg.SCM_REGION_PAGE_FREELIST_SIZE) :
    recycle_region cfg root region =
      ({ root with
          region_page_pool := legacy_pages.drop (root.number_of_pooled_region_pages
            + legacy_pages.length - cfg.SCM_REGION_PAGE_FREELIST_SIZE)
            ++ root.region_page_pool,
          number_of_pooled_region_pages := min cfg.SCM_REGION_PAGE_FREELIST_SIZE
            (root.number_of_pooled_region_pages + legacy_pages.length) },
       { region with
          chain := [fp],
          number_of_region_pages := 1,
          last_address_in_last_page :=
            memory_address cfg fp + cfg.REGION_PAGE_PAYLOAD_SIZE,
          next_free_address := memory_address cfg fp },
       legacy_pages.take (root.number_of_pooled_region_pages
         + legacy_pages.length - cfg.SCM_REGION_PAGE_FREELIST_SIZE)) := by
  obtain ⟨chain, cnt, nfa, lap, age, dc⟩ := region
  simp only at hchain hcons hfresh
  subst hchain
  have hn : cnt - 1 = legacy_pages.length := by
    rw [hcons]; simp
  simp only [recycle_region, hfresh, if_true, hn, hleg, reanchor,
    pool_or_free_spec cfg root legacy_pages hp]
  simp

/-- Path equation: a fresh region whose chain is the single page `fp`
(regions.c lines 91-120): early return, only `last_address_in_last_page`
(line 87-88, with the `- 1`) and `dc` are written. -/
lemma recycle_region_fresh_single (cfg : scm_config) (root : descriptor_root_t)
    (region : region_t) (fp : Nat)
    (hfresh : region.age = root.current_time)
    (hchain : region.chain = [fp]) :
    recycle_region cfg root region =
      (root,
       { region with
          last_address_in_last_page :=
            memory_address cfg fp + cfg.REGION_PAGE_PAYLOAD_SIZE - 1,
          dc := 0 },
       []) := by
  obtain ⟨chain, cnt, nfa, lap, age, dc⟩ := region
  simp only at hchain hfresh
  subst hchain
  simp [recycle_region, hfresh]

/-- Path equation: a zombie region with a non-empty chain.  The whole chain
is the recyclable set; the region ends fully empty with the dangling bump
cursor written by lines 269-273 before the lines 296-299 override. -/
lemma recycle_region_zombie_multi (cfg : scm_config) (root : descriptor_root_t)
    (region : region_t) (fp : Nat) (rest : List Nat)
    (hz : ¬ region.age = root.current_time)
    (hchain : region.chain = fp :: rest)
    (hcons : region.number_of_region_pages = region.chain.length)
    (hp : root.number_of_pooled_region_pages ≤ cfg.SCM_REGION_PAGE_FREELIST_SIZE) :
    recycle_region cfg root region =
      ({ root with
          region_page_pool := (fp :: rest).drop (root.number_of_pooled_region_pages
            + (fp :: rest).length - cfg.SCM_REGION_PAGE_FREELIST_SIZE)
            ++ root.region_page_pool,
          number_of_pooled_region_pages := min cfg.SCM_REGION_PAGE_FREELIST_SIZE
            (root.number_of_pooled_region_pages + (fp :: rest).length) },
       { region with
          chain := [],
          number_of_region_pages := 0,
          last_address_in_last_page :=
            memory_address cfg fp + cfg.REGION_PAGE_PAYLOAD_SIZE,
          next_free_address := memory_address cfg fp },
       (fp :: rest).take (root.number_of_pooled_region_pages
         + (fp :: rest).length - cfg.SCM_REGION_PAGE_FREELIST_SIZE)) := by
  obtain ⟨chain, cnt, nfa, lap, age, dc⟩ := region
  simp only at hchain hcons hz
  subst hchain
  simp only [recycle_region, hz, if_false, hcons, reanchor,
    pool_or_free_spec cfg root (fp :: rest) hp]

/-- Path equation: a zombie region with an empty chain (regions.c lines
146-171): early return, only `dc` is written. -/
lemma recycle_region_zombie_empty (cfg : scm_config) (root : descriptor_root_t)
    (region : region_t)
    (hz : ¬ region.age = root.current_time)
    (hchain : region.chain = []) :
    recycle_region cfg root region = (root, { region with dc := 0 }, []) := by
  obtain ⟨chain, cnt, nfa, lap, age, dc⟩ := region
  simp only at hchain hz
  subst hchain
  simp [recycle_region, hz]

/-- A sample configuration: payload 16 bytes per page, pool bound 10
(Scenario A of the spec), payload field at offset 8. -/
def cfg_a : scm_config := ⟨16, 10, 8⟩

/-- Scenario A root: 8 pages pooled, bound 10. -/
def root_a : descriptor_root_t := ⟨5, [900, 901, 902, 903, 904, 905, 906, 907], 8⟩

/-- Scenario A region: fresh (age = epoch 5) with 5 pages, dc = 0. -/
def region_a : region_t := ⟨[100, 101, 102, 103, 104], 5, 0, 0, 5, 0⟩

/-- Scenario B root: 3 pages pooled, bound 10. -/
def root_b : descriptor_root_t := ⟨5, [900, 901, 902], 3⟩

/-- Scenario B region: zombie (age 4 ≠ epoch 5) with 1 page, dc = 0. -/
def region_b : region_t := ⟨[100], 1, 0, 0, 4, 0⟩

/-- Scenario C region: fresh with exactly one page, dc = 0. -/
def region_c : region_t := ⟨[100], 1, 7, 7, 5, 0⟩

/-- A fresh two-page region, dc = 0. -/
def region_d : region_t := ⟨[100, 200], 2, 0, 0, 5, 0⟩

/-- Claim C1: for every region with `dc = 0`, a consistent page chain, a
recyclable set of size `n ≥ 1` and a pooled count within
`SCM_REGION_PAGE_FREELIST_SIZE` beforehand, after `recycle_region` the
pooled count equals `min (SCM_REGION_PAGE_FREELIST_SIZE) (pooled + n)` —
covering the fits branch and the overflow branch alike, so the double
assignment in the overflow branch does not change the final value. -/
theorem recycle_pooled_count_min (cfg : scm_config) (root : descriptor_root_t)
    (region : region_t)
    (hdc : region.dc = 0)
    (hcons : region.number_of_region_pages = region.chain.length)
    (hn : 1 ≤ recyclable_count root region)
    (hp : root.number_of_pooled_region_pages ≤ cfg.SCM_REGION_PAGE_FREELIST_SIZE) :
    (recycle_region cfg root region).1.number_of_pooled_region_pages =
      min cfg.SCM_REGION_PAGE_FREELIST_SIZE
        (root.number_of_pooled_region_pages + recyclable_count root region) := by
  by_cases hfresh : region.age = root.current_time
  · have hrc : recyclable_count root region = region.number_of_region_pages - 1 := by
      simp [recyclable_count, is_fresh, hfresh]
    rcases hchain : region.chain with _ | ⟨fp, legacy⟩
    · rw [hchain] at hcons
      rw [hrc, hcons] at hn
      simp at hn
    · have hlen : region.number_of_region_pages = legacy.length + 1 := by
        rw [hcons, hchain]; simp
      have hleg : legacy ≠ [] := by
        intro hcon
        rw [hrc, hlen, hcon] at hn
        simp at hn
      rw [recycle_region_fresh_multi cfg root region fp legacy hfresh hchain hleg hcons hp]
      rw [hrc, hlen]
      simp
  · have hrc : recyclable_count root region = region.number_of_region_pages := by
      simp [recyclable_count, is_fresh, hfresh]
    rcases hchain : region.chain with _ | ⟨fp, rest⟩
    · rw [hchain] at hcons
      rw [hrc, hcons] at hn
      simp at hn
    · have hlen : region.number_of_region_pages = rest.length + 1 := by
        rw [hcons, hchain]; simp
      rw [recycle_region_zombie_multi cfg root region fp rest hfresh hchain hcons hp]
      rw [hrc, hlen]
      simp

/-- Claim C1 witness: Scenario A (pool bound 10, 8 pooled, fresh region with
5 pages): the pooled count ends at `min 10 (8 + 4) = 10`. -/
theorem recycle_pooled_count_min_witness :
    (recycle_region cfg_a root_a region_a).1.number_of_pooled_region_pages =
      min cfg_a.SCM_REGION_PAGE_FREELIST_SIZE
        (root_a.number_of_pooled_region_pages + recyclable_count root_a region_a) :=
  recycle_pooled_count_min cfg_a root_a region_a (by decide) (by decide)
    (by decide) (by decide)

/-- Region projection of the fresh multi-page path: independent of the pool
state, the region ends re-anchored to its first page. -/
lemma recycle_region_fresh_multi_region (cfg : scm_config)
    (root : descriptor_root_t) (region : region_t) (fp : Nat)
    (legacy_pages : List Nat)
    (hfresh : region.age = root.current_time)
    (hchain : region.chain = fp :: legacy_pages)
    (hleg : legacy_pages ≠ []) :
    (recycle_region cfg root region).2.1 =
      { region with
          chain := [fp],
          number_of_region_pages := 1,
          last_address_in_last_page :=
            memory_address cfg fp + cfg.REGION_PAGE_PAYLOAD_SIZE,
          next_free_address := memory_address cfg fp } := by
  obtain ⟨chain, cnt, nfa, lap, age, dc⟩ := region
  simp only at hchain hfresh
  subst hchain
  simp [recycle_region, hfresh, hleg, reanchor]

/-- Region projection of the zombie non-empty path: independent of the pool
state, the region ends fully empty with the dangling bump cursor. -/
lemma recycle_region_zombie_multi_region (cfg : scm_config)
    (root : descriptor_root_t) (region : region_t) (fp : Nat) (rest : List Nat)
    (hz : ¬ region.age = root.current_time)
    (hchain : region.chain = fp :: rest) :
    (recycle_region cfg root region).2.1 =
      { region with
          chain := [],
          number_of_region_pages := 0,
          last_address_in_last_page :=
            memory_address cfg fp + cfg.REGION_PAGE_PAYLOAD_SIZE,
          next_free_address := memory_address cfg fp } := by
  obtain ⟨chain, cnt, nfa, lap, age, dc⟩ := region
  simp only at hchain hz
  subst hchain
  simp [recycle_region, hz, reanchor]

/-- Claim C2: for every fresh region with more than one page and `dc = 0`,
after `recycle_region` the region has exactly one page
(`number_of_region_pages = 1`, `lastPage = firstPage`, chain `[fp]` so the
retained first page's `nextPage` link is empty) and the bump cursor is
reset to the retained page: `next_free_address` is its payload base and
`last_address_in_last_page` is payload base `+ REGION_PAGE_PAYLOAD_SIZE`
(the value line 271-272 computes). -/
theorem recycle_fresh_single_page_result (cfg : scm_config)
    (root : descriptor_root_t) (region : region_t) (fp : Nat)
    (hdc : region.dc = 0)
    (hfresh : region.age = root.current_time)
    (hcons : region.number_of_region_pages = region.chain.length)
    (hk : 1 < region.number_of_region_pages)
    (hfp : region.chain.head? = some fp) :
    (recycle_region cfg root region).2.1.number_of_region_pages = 1 ∧
    (recycle_region cfg root region).2.1.chain = [fp] ∧
    (recycle_region cfg root region).2.1.firstPage = some fp ∧
    (recycle_region cfg root region).2.1.lastPage = some fp ∧
    (recycle_region cfg root region).2.1.next_free_address =
      memory_address cfg fp ∧
    (recycle_region cfg root region).2.1.last_address_in_last_page =
      memory_address cfg fp + cfg.REGION_PAGE_PAYLOAD_SIZE := by
  rcases hchain : region.chain with _ | ⟨a, legacy⟩
  · rw [hchain] at hfp
    simp at hfp
  · have heq : fp = a := by
      rw [hchain] at hfp
      simp at hfp
      exact hfp.symm
    subst heq
    have hleg : legacy ≠ [] := by
      intro hcon
      rw [hcons, hchain, hcon] at hk
      simp at hk
    rw [recycle_region_fresh_multi_region cfg root region fp legacy hfresh hchain hleg]
    simp [region_t.firstPage, region_t.lastPage]

/-- Claim C2 witness: Scenario A's fresh five-page region ends with exactly
one page. -/
theorem recycle_fresh_single_page_result_witness :
    (recycle_region cfg_a root_a region_a).2.1.number_of_region_pages = 1 :=
  (recycle_fresh_single_page_result cfg_a root_a region_a 100 (by decide)
    (by decide) (by decide) (by decide) (by decide)).1

/-- Claim C3: for every zombie region with `k ≥ 1` pages and `dc = 0`, after
`recycle_region` the region is fully empty (`number_of_region_pages = 0`,
`firstPage = lastPage = NULL`) and its `k` pages are split between the pool
and OS deallocation by the same capacity rule as for fresh regions, with
recyclable set size `k`: the pool receives the chain minus its overflow
prefix, the pooled count becomes `min (bound) (pooled + k)`, and the
overflow prefix is freed. -/
theorem recycle_zombie_empties (cfg : scm_config) (root : descriptor_root_t)
    (region : region_t)
    (hdc : region.dc = 0)
    (hz : region.age ≠ root.current_time)
    (hcons : region.number_of_region_pages = region.chain.length)
    (hk : 1 ≤ region.number_of_region_pages)
    (hp : root.number_of_pooled_region_pages ≤ cfg.SCM_REGION_PAGE_FREELIST_SIZE) :
    (recycle_region cfg root region).2.1.number_of_region_pages = 0 ∧
    (recycle_region cfg root region).2.1.firstPage = none ∧
    (recycle_region cfg root region).2.1.lastPage = none ∧
    (recycle_region cfg root region).1.number_of_pooled_region_pages =
      min cfg.SCM_REGION_PAGE_FREELIST_SIZE
        (root.number_of_pooled_region_pages + region.number_of_region_pages) ∧
    (recycle_region cfg root region).1.region_page_pool =
      region.chain.drop (root.number_of_pooled_region_pages
        + region.number_of_region_pages - cfg.SCM_REGION_PAGE_FREELIST_SIZE)
        ++ root.region_page_pool ∧
    (recycle_region cfg root region).2.2 =
      region.chain.take (root.number_of_pooled_region_pages
        + region.number_of_region_pages - cfg.SCM_REGION_PAGE_FREELIST_SIZE) := by
  rcases hchain : region.chain with _ | ⟨fp, rest⟩
  · rw [hchain] at hcons
    rw [hcons] at hk
    simp at hk
  · have hlen : region.number_of_region_pages = rest.length + 1 := by
      rw [hcons, hchain]; simp
    rw [recycle_region_zombie_multi cfg root region fp rest hz hchain hcons hp]
    rw [hlen]
    simp [region_t.firstPage, region_t.lastPage]

/-- Claim C3 witness: Scenario B (pool bound 10, 3 pooled, zombie region
with one page) ends with zero pages. -/
theorem recycle_zombie_empties_witness :
    (recycle_region cfg_a root_b region_b).2.1.number_of_region_pages = 0 :=
  (recycle_zombie_empties cfg_a root_b region_b (by decide) (by decide)
    (by decide) (by decide) (by decide)).1

/-- Claim C4: for every region satisfying the reclamation precondition
(`dc = 0`, chain length equal to `number_of_region_pages`), if the pooled
count is within `SCM_REGION_PAGE_FREELIST_SIZE` before `recycle_region`, it
still is afterwards: the pooled count never exceeds the bound after any
reclamation. -/
theorem recycle_pool_bound_invariant (cfg : scm_config)
    (root : descriptor_root_t) (region : region_t)
    (hdc : region.dc = 0)
    (hcons : region.number_of_region_pages = region.chain.length)
    (hp : root.number_of_pooled_region_pages ≤ cfg.SCM_REGION_PAGE_FREELIST_SIZE) :
    (recycle_region cfg root region).1.number_of_pooled_region_pages ≤
      cfg.SCM_REGION_PAGE_FREELIST_SIZE := by
  by_cases hfresh : region.age = root.current_time
  · rcases hchain : region.chain with _ | ⟨fp, legacy⟩
    · simp only [recycle_region, hfresh, if_true, hchain]
      exact hp
    · by_cases hleg : legacy = []
      · subst hleg
        rw [recycle_region_fresh_single cfg root region fp hfresh hchain]
        exact hp
      · rw [recycle_region_fresh_multi cfg root region fp legacy hfresh hchain hleg
          hcons hp]
        simp
  · rcases hchain : region.chain with _ | ⟨fp, rest⟩
    · rw [recycle_region_zombie_empty cfg root region hfresh hchain]
      exact hp
    · rw [recycle_region_zombie_multi cfg root region fp rest hfresh hchain hcons hp]
      simp

/-- Claim C4 witness: Scenario A keeps the pooled count within the bound. -/
theorem recycle_pool_bound_invariant_witness :
    (recycle_region cfg_a root_a region_a).1.number_of_pooled_region_pages ≤
      cfg_a.SCM_REGION_PAGE_FREELIST_SIZE :=
  recycle_pool_bound_invariant cfg_a root_a region_a (by decide) (by decide)
    (by decide)

/-- Claim C5: for every region with `dc = 0`, consistent chain, recyclable
set of size `n ≥ 1` and pooled count within the bound, `recycle_region`
hands back to the underlying allocator (`__real_free`) exactly the initial
segment, taken one page at a time from the head of the recyclable chain, of
length `max 0 (pooled + n - SCM_REGION_PAGE_FREELIST_SIZE)`. -/
theorem recycle_frees_overflow_pages (cfg : scm_config)
    (root : descriptor_root_t) (region : region_t)
    (hdc : region.dc = 0)
    (hcons : region.number_of_region_pages = region.chain.length)
    (hn : 1 ≤ recyclable_count root region)
    (hp : root.number_of_pooled_region_pages ≤ cfg.SCM_REGION_PAGE_FREELIST_SIZE) :
    (recycle_region cfg root region).2.2 =
      (recyclable_chain root region).take (root.number_of_pooled_region_pages
        + recyclable_count root region - cfg.SCM_REGION_PAGE_FREELIST_SIZE) ∧
    ((recycle_region cfg root region).2.2.length : Int) =
      max 0 ((root.number_of_pooled_region_pages : Int)
        + (recyclable_count root region : Int)
        - (cfg.SCM_REGION_PAGE_FREELIST_SIZE : Int)) := by
  by_cases hfresh : region.age = root.current_time
  · have hrc : recyclable_count root region = region.number_of_region_pages - 1 := by
      simp [recyclable_count, is_fresh, hfresh]
    have hrch : recyclable_chain root region = region.chain.tail := by
      simp [recyclable_chain, is_fresh, hfresh]
    rcases hchain : region.chain with _ | ⟨fp, legacy⟩
    · rw [hchain] at hcons
      rw [hrc, hcons] at hn
      simp at hn
    · have hlen : region.number_of_region_pages = legacy.length + 1 := by
        rw [hcons, hchain]; simp
      have hleg : legacy ≠ [] := by
        intro hcon
        rw [hrc, hlen, hcon] at hn
        simp at hn
      rw [recycle_region_fresh_multi cfg root region fp legacy hfresh hchain hleg
        hcons hp]
      rw [hrc, hrch, hchain, hlen]
      constructor
      · simp
      · simp only [List.tail_cons]
        rw [List.length_take]
        have hmin : min (root.number_of_pooled_region_pages + legacy.length
            - cfg.SCM_REGION_PAGE_FREELIST_SIZE) legacy.length =
            root.number_of_pooled_region_pages + legacy.length
            - cfg.SCM_REGION_PAGE_FREELIST_SIZE := by omega
        rw [hmin]
        push_cast
        omega
  · have hrc : recyclable_count root region = region.number_of_region_pages := by
      simp [recyclable_count, is_fresh, hfresh]
    have hrch : recyclable_chain root region = region.chain := by
      simp [recyclable_chain, is_fresh, hfresh]
    rcases hchain : region.chain with _ | ⟨fp, rest⟩
    · rw [hchain] at hcons
      rw [hrc, hcons] at hn
      simp at hn
    · have hlen : region.number_of_region_pages = rest.length + 1 := by
        rw [hcons, hchain]; simp
      rw [recycle_region_zombie_multi cfg root region fp rest hfresh hchain hcons hp]
      rw [hrc, hrch, hlen]
      constructor
      · rw [hchain]
        simp
      · rw [List.length_take]
        have hmin : min (root.number_of_pooled_region_pages + (fp :: rest).length
            - cfg.SCM_REGION_PAGE_FREELIST_SIZE) (fp :: rest).length =
            root.number_of_pooled_region_pages + (fp :: rest).length
            - cfg.SCM_REGION_PAGE_FREELIST_SIZE := by
          simp only [List.length_cons]
          omega
        rw [hmin]
        simp only [List.length_cons]
        push_cast
        omega

/-- Claim C5 witness: Scenario A frees exactly the first
`max 0 (8 + 4 - 10) = 2` pages of the recyclable chain. -/
theorem recycle_frees_overflow_pages_witness :
    (recycle_region cfg_a root_a region_a).2.2 =
      (recyclable_chain root_a region_a).take
        (root_a.number_of_pooled_region_pages
          + recyclable_count root_a region_a
          - cfg_a.SCM_REGION_PAGE_FREELIST_SIZE) :=
  (recycle_frees_overflow_pages cfg_a root_a region_a (by decide) (by decide)
    (by decide) (by decide)).1

/-- Claim C6: `expire_reg_descriptor_if_exists` returns 0 iff the source
yields no expired descriptor, and changes no state in that case; when a
descriptor is yielded it returns 1 regardless of whether the decrement
reached zero, and `recycle_region` is invoked exactly when the atomic
decrement observed the transition from 1 to 0 (old value 1). -/
theorem expire_returns_and_recycles (cfg : scm_config)
    (root : descriptor_root_t) (expired : Option region_t) :
    ((expire_reg_descriptor_if_exists cfg root expired).ret = 0 ↔
      expired = none) ∧
    (expired = none →
      expire_reg_descriptor_if_exists cfg root expired =
        ⟨0, root, none, false, []⟩) ∧
    (∀ r : region_t, expired = some r →
      (expire_reg_descriptor_if_exists cfg root expired).ret = 1 ∧
      ((expire_reg_descriptor_if_exists cfg root expired).recycled ↔
        r.dc = 1)) := by
  cases expired with
  | none => simp [expire_reg_descriptor_if_exists]
  | some r =>
    by_cases h : r.dc = 1 <;>
      simp [expire_reg_descriptor_if_exists, atomic_int_dec_and_test,
        atomic_int_exchange_and_add, h]

/-- Claim C6 witness: with an empty source, the call reports
"none processed". -/
theorem expire_returns_and_recycles_witness :
    (expire_reg_descriptor_if_exists cfg_a root_b none).ret = 0 :=
  (expire_returns_and_recycles cfg_a root_b none).1.mpr rfl

/-- Claim C7 (code bug in the source): the re-anchor path (regions.c lines
271-272) computes the usable bound as payload base
`+ REGION_PAGE_PAYLOAD_SIZE` with no `- 1`, unlike the fresh early path
(lines 87-88) which computes `+ REGION_PAGE_PAYLOAD_SIZE - 1`: recycling
the fresh two-page region `region_d` leaves
`last_address_in_last_page = memory_address + 16`, one past the value
`memory_address + 16 - 1` the claim states, while the single-page region
`region_c` (early path) does get the `- 1`. -/
theorem reanchor_bound_missing_minus_one :
    (recycle_region cfg_a root_b region_d).2.1.last_address_in_last_page =
      memory_address cfg_a 100 + cfg_a.REGION_PAGE_PAYLOAD_SIZE ∧
    (recycle_region cfg_a root_b region_d).2.1.last_address_in_last_page ≠
      memory_address cfg_a 100 + cfg_a.REGION_PAGE_PAYLOAD_SIZE - 1 ∧
    (recycle_region cfg_a root_b region_c).2.1.last_address_in_last_page =
      memory_address cfg_a 100 + cfg_a.REGION_PAGE_PAYLOAD_SIZE - 1 := by
  decide

/-- Claim C8: a fresh region with exactly one page and `dc = 0` makes
`recycle_region` return early without touching the free-page pool: the
root state (pool and pooled count) is exactly as before, the chain and page
count are unchanged (`firstPage = lastPage`), no page is freed, and `dc` is
0 on return. -/
theorem recycle_fresh_one_page_noop (cfg : scm_config)
    (root : descriptor_root_t) (region : region_t) (fp : Nat)
    (hdc : region.dc = 0)
    (hfresh : region.age = root.current_time)
    (hchain : region.chain = [fp])
    (hcount : region.number_of_region_pages = 1) :
    (recycle_region cfg root region).1 = root ∧
    (recycle_region cfg root region).2.1.chain = region.chain ∧
    (recycle_region cfg root region).2.1.number_of_region_pages = 1 ∧
    (recycle_region cfg root region).2.1.firstPage =
      (recycle_region cfg root region).2.1.lastPage ∧
    (recycle_region cfg root region).2.1.dc = 0 ∧
    (recycle_region cfg root region).2.2 = [] := by
  rw [recycle_region_fresh_single cfg root region fp hfresh hchain]
  simp [region_t.firstPage, region_t.lastPage, hchain, hcount]

/-- Claim C8 witness: Scenario C (fresh, one page) leaves the root state
untouched. -/
theorem recycle_fresh_one_page_noop_witness :
    (recycle_region cfg_a root_b region_c).1 = root_b :=
  (recycle_fresh_one_page_noop cfg_a root_b region_c 100 (by decide)
    (by decide) (by decide) (by decide)).1

/-- Claim C9 (implicit behavior): after a non-empty zombie region is
recycled, the region is empty (`firstPage = lastPage = NULL`,
`number_of_region_pages = 0`) but the bump cursor is not cleared:
`next_free_address` equals the payload address of the former first page and
`last_address_in_last_page` is derived from it, even though that very page
now sits in the shared pool or has been freed to the OS. -/
theorem recycle_zombie_dangling_cursor (cfg : scm_config)
    (root : descriptor_root_t) (region : region_t) (fp : Nat) (rest : List Nat)
    (hdc : region.dc = 0)
    (hz : region.age ≠ root.current_time)
    (hchain : region.chain = fp :: rest)
    (hcons : region.number_of_region_pages = region.chain.length)
    (hp : root.number_of_pooled_region_pages ≤ cfg.SCM_REGION_PAGE_FREELIST_SIZE) :
    (recycle_region cfg root region).2.1.firstPage = none ∧
    (recycle_region cfg root region).2.1.lastPage = none ∧
    (recycle_region cfg root region).2.1.number_of_region_pages = 0 ∧
    (recycle_region cfg root region).2.1.next_free_address =
      memory_address cfg fp ∧
    (recycle_region cfg root region).2.1.last_address_in_last_page =
      memory_address cfg fp + cfg.REGION_PAGE_PAYLOAD_SIZE ∧
    (fp ∈ (recycle_region cfg root region).1.region_page_pool ∨
      fp ∈ (recycle_region cfg root region).2.2) := by
  rw [recycle_region_zombie_multi cfg root region fp rest hz hchain hcons hp]
  refine ⟨by simp [region_t.firstPage], by simp [region_t.lastPage], by simp,
    by simp, by simp, ?_⟩
  by_cases hf : root.number_of_pooled_region_pages + (rest.length + 1) -
      cfg.SCM_REGION_PAGE_FREELIST_SIZE = 0
  · left
    simp [hf]
  · right
    rcases Nat.exists_eq_succ_of_ne_zero hf with ⟨k, hk⟩
    have hk2 : root.number_of_pooled_region_pages + (rest.length + 1) -
        cfg.SCM_REGION_PAGE_FREELIST_SIZE = k + 1 := hk
    simp [hk2, List.take_succ_cons]

/-- Claim C9 witness: Scenario B's zombie one-page region keeps a cursor
pointing at the payload of the page that went into the pool. -/
theorem recycle_zombie_dangling_cursor_witness :
    (recycle_region cfg_a root_b region_b).2.1.next_free_address =
      memory_address cfg_a 100 :=
  (recycle_zombie_dangling_cursor cfg_a root_b region_b 100 [] (by decide)
    (by decide) (by decide) (by decide) (by decide)).2.2.2.1

/-- 32-bit wrap is the identity on in-range values. -/
lemma int32_eq_self (x : Int) (h1 : -(2 ^ 31) ≤ x) (h2 : x < 2 ^ 31) :
    int32 x = x := by
  unfold int32
  have hmod : (x + 2 ^ 31) % 2 ^ 32 = x + 2 ^ 31 :=
    Int.emod_eq_of_lt (by omega) (by omega)
  omega

/-- Running one decrement per schedule entry from a counter equal to the
schedule's (positive, in-range) length yields exactly one true test. -/
lemma run_dec_schedule_one_true (schedule : List Nat) :
    ∀ a : Int, a = (schedule.length : Int) → (schedule.length : Int) < 2 ^ 31 →
      1 ≤ schedule.length →
      ((run_dec_schedule schedule a).filter (fun p => p.2)).length = 1 := by
  induction schedule with
  | nil =>
    intro a ha hlt hge
    simp at hge
  | cons t ts ih =>
    intro a ha hlt hge
    simp only [List.length_cons] at ha hlt
    rcases Nat.eq_zero_or_pos ts.length with hz | hpos
    · have hts : ts = [] := List.length_eq_zero.mp hz
      subst hts
      simp only [List.length_nil, Nat.cast_zero, zero_add, Nat.cast_one] at ha
      subst ha
      simp [run_dec_schedule, atomic_int_dec_and_test,
        atomic_int_exchange_and_add]
    · have hane : ¬(a = 1) := by omega
      have hstep : int32 (a + -1) = a - 1 := by
        apply int32_eq_self <;> omega
      simp only [run_dec_schedule, atomic_int_dec_and_test,
        atomic_int_exchange_and_add, hstep, List.filter_cons]
      simp only [hane, decide_False]
      exact ih (a - 1) (by omega) (by omega) (by omega)

/-- Claim C10: for `N` concurrent decrements of the same region's `dc` via
`atomic_int_dec_and_test` starting from `dc = N` (with `N` representable),
exactly one of the `N` calls observes the transition to zero, whatever the
interleaving: for every linearization schedule of the `N` calls, exactly
one test in the run is true. -/
theorem atomic_dec_exactly_one_zero_transition (schedule : List Nat) (N : Nat)
    (hlen : schedule.length = N) (h1 : 1 ≤ N) (h2 : N < 2 ^ 31) :
    ((run_dec_schedule schedule (N : Int)).filter (fun p => p.2)).length = 1 := by
  subst hlen
  exact run_dec_schedule_one_true schedule (schedule.length : Int) rfl
    (by exact_mod_cast h2) h1

/-- Claim C10 witness: three threads decrementing from 3, in schedule order
7, 8, 9: exactly one observes the zero transition. -/
theorem atomic_dec_exactly_one_zero_transition_witness :
    ((run_dec_schedule [7, 8, 9] ((3 : Nat) : Int)).filter
      (fun p => p.2)).length = 1 :=
  atomic_dec_exactly_one_zero_transition [7, 8, 9] 3 rfl (by decide) (by decide)
